import Mathlib

/-!
Verification of the `ddg_search` client library (`src/ddg_search/client.py`)
against its natural-language specification.

The Python client is embedded shallowly:
* pure string manipulation (safe-search mapping, filter-string construction,
  filename derivation, vqd-token regex search) becomes Lean functions on
  `String` / `List Char`;
* HTTP transport is abstracted: a request either fails with an
  `httpx.RequestError` or produces a `Response` (status code plus optional
  readable body); `raise_for_status` raises an `httpx.HTTPStatusError` for a
  non-2xx status;
* Python exception propagation becomes `Except`: each `try/except` block of
  the source is mirrored, and an exception not matched by any handler escapes
  as an `uncaught` value;
* the `asearch` pagination loop becomes a fuel-indexed recursion over an
  abstract server `Nat → Except PyErr (PageResponse α)` giving the decoded
  JSON page at each requested offset, recording the requests issued, the
  results yielded and the final outcome.
-/

namespace DDG

/-! ## Exceptions

`httpx` raises `RequestError` for transport failures and `HTTPStatusError`
from `raise_for_status`; the two are sibling subclasses of `httpx.HTTPError`,
so `except httpx.RequestError` does not catch `HTTPStatusError`. -/

/-- The `httpx` exceptions relevant to the client: transport failures
(`httpx.RequestError`) and non-success statuses (`httpx.HTTPStatusError`,
raised by `response.raise_for_status()`). -/
inductive HttpxError where
  | requestError
  | httpStatusError (status : Nat)
deriving DecidableEq, Repr

/-- Python `isinstance(e, httpx.RequestError)`: `HTTPStatusError` is NOT a
`RequestError` (both directly subclass `httpx.HTTPError`). -/
def isRequestError : HttpxError → Bool
  | .requestError => true
  | .httpStatusError _ => false

/-- Exceptions observable from the library code: the library's own error
types (`exceptions.py`: `NetworkError`, `VQDTokenError`, `ParsingError`),
a Python `TypeError`, and any `httpx` exception that escapes uncaught. -/
inductive PyErr where
  | networkError
  | vqdTokenError
  | parsingError
  | typeError
  | uncaught (e : HttpxError)
deriving DecidableEq, Repr

/-- An HTTP response: status code and body. `body = none` models a body
that cannot be read/decoded as text. -/
structure Response where
  status : Nat
  body : Option String
deriving DecidableEq, Repr

/-- Python `response.raise_for_status()`: raises `httpx.HTTPStatusError` unless the
status is a success (2xx) status. -/
def raiseForStatus (r : Response) : Except HttpxError Unit :=
  if 200 ≤ r.status ∧ r.status < 300 then .ok () else .error (.httpStatusError r.status)

/-- The shared shape of the request `try`-blocks (client.py lines 64-68,
142-146, 225-227): perform the request, then `raise_for_status`; any
`httpx` exception propagates out of the block. `fetch` is the transport
outcome of the request itself. -/
def requestTryBlock (fetch : Except HttpxError Response) : Except HttpxError Response :=
  match fetch with
  | .error e => .error e
  | .ok r =>
    match raiseForStatus r with
    | .error e => .error e
    | .ok () => .ok r

/-- The shared shape of the `except httpx.RequestError` handlers
(client.py lines 69-70, 147-148, 231-232): a `RequestError` is converted to
the library's `NetworkError`; any other exception escapes uncaught. -/
def handleRequestError (res : Except HttpxError Response) : Except PyErr Response :=
  match res with
  | .ok r => .ok r
  | .error e => if isRequestError e then .error .networkError else .error (.uncaught e)

/-! ## Safe-search mapping (client.py lines 117-119) -/

/-- Python `str.lower()`: lowercase each character. The dictionary keys are
ASCII, where `Char.toLower` agrees with Python's `str.lower`. -/
def pyLower (s : String) : String := ⟨s.data.map Char.toLower⟩

/-- Line 118: `safesearch_map = {"on": "1", "moderate": "-1", "off": "-2"}` -/
def safesearch_map : List (String × String) :=
  [("on", "1"), ("moderate", "-1"), ("off", "-2")]

/-- Line 119: `p_value = safesearch_map.get(safesearch.lower(), "-1")` -/
def p_value (safesearch : String) : String :=
  (safesearch_map.lookup (pyLower safesearch)).getD "-1"

/-! ## Filter string (client.py lines 121-130) -/

/-- One element of the `filters` list: `f"key:{v}" if v else ""`.
Python truthiness: both `None` and the empty string count as absent. -/
def optField (key : String) (v : Option String) : String :=
  match v with
  | some s => if s = "" then "" else key ++ ":" ++ s
  | none => ""

/-- The `filters` list literal (lines 122-129), in source order. -/
def filtersList (timelimit size color type_image layout license_image : Option String) :
    List String :=
  [ optField "time" timelimit,
    optField "size" size,
    optField "color" color,
    optField "type" type_image,
    optField "layout" layout,
    optField "license" license_image ]

/-- Line 130: `f_value = ",".join(filter(None, filters))`: drop falsy (empty) strings,
join the rest with commas. -/
def f_value (timelimit size color type_image layout license_image : Option String) :
    String :=
  String.intercalate ","
    ((filtersList timelimit size color type_image layout license_image).filter
      (fun s => s ≠ ""))

/-- Rendering of the filter string following the spec's words: each present
field rendered as `key:value`, all present fields joined with commas in the
fixed order time, size, color, type, layout, license; absent fields
contribute nothing. -/
def f_value_spec (timelimit size color type_image layout license_image : Option String) :
    String :=
  String.intercalate ","
    (([("time", timelimit), ("size", size), ("color", color), ("type", type_image),
       ("layout", layout), ("license", license_image)] : List (String × Option String)).filterMap
      (fun kv => kv.2.map (fun s => kv.1 ++ ":" ++ s)))

/-! ## VQD token extraction (client.py lines 50-80)

The regex is `vqd=['\"]([a-zA-Z0-9-]+)['\"]` applied with `re.search` (first
match, scanning left to right; the group is greedy, so it captures the
maximal run of token characters, which must be followed by a quote). -/

/-- A character matched by the class `[a-zA-Z0-9-]`. -/
def isTokenChar (c : Char) : Bool :=
  c.isAlpha || c.isDigit || c = '-'

/-- A character matched by the class `['\"]` (single or double quote). -/
def isQuoteChar (c : Char) : Bool :=
  c = '\'' || c = '"'

/-- Attempt to match the whole regex at the head of `l`, returning the
captured group. `+` is greedy: the group is the maximal run of token
characters after the opening quote; since quotes are not token characters,
backtracking cannot produce a different (shorter) capture, so the match
succeeds iff that maximal run is nonempty and followed by a quote. -/
def matchVqdAt : List Char → Option (List Char)
  | 'v' :: 'q' :: 'd' :: '=' :: q :: rest =>
    if isQuoteChar q then
      match rest.dropWhile isTokenChar with
      | q2 :: _ =>
        if isQuoteChar q2 && !(rest.takeWhile isTokenChar).isEmpty then
          some (rest.takeWhile isTokenChar)
        else none
      | [] => none
    else none
  | _ => none

/-- Python `re.search`: try the pattern at each position left to right, returning
the capture of the first position that matches. -/
def searchVqd : List Char → Option (List Char)
  | [] => none
  | c :: rest =>
    match matchVqdAt (c :: rest) with
    | some tok => some tok
    | none => searchVqd rest

/-- The call `re.search(r"vqd=['\"]([a-zA-Z0-9-]+)['\"]", text)` followed by
`match.group(1)`. -/
def findVqd (text : String) : Option String :=
  (searchVqd text.data).map (fun l => ⟨l⟩)

/-- Method `Client._get_vqd` (client.py lines 50-80): perform the POST and
`raise_for_status` inside a `try` whose handler catches only
`httpx.RequestError` (converted to `NetworkError`); then read the body
(`none` = unreadable, modelling a decode failure) and extract the token,
raising `VQDTokenError` when the body is unreadable or the pattern does not
match. -/
def get_vqd (fetch : Except HttpxError Response) : Except PyErr String :=
  match handleRequestError (requestTryBlock fetch) with
  | .error e => .error e
  | .ok r =>
    match r.body with
    | none => .error .vqdTokenError
    | some text =>
      match findVqd text with
      | some tok => .ok tok
      | none => .error .vqdTokenError

/-! ## Download (client.py lines 205-232) -/

/-- A Python value that may be a `str` or a `list[str]`: the result of the
filename derivation on line 218, `url.split("/")[-1].split("?")`, is a
*list* (the indexing `[0]` after the second split is missing in the source). -/
inductive PyVal where
  | str (s : String)
  | list (l : List String)
deriving DecidableEq, Repr

/-- Python `str.split(sep)` for a one-character separator: split at every
occurrence of `sep`, keeping empty fragments; the result is never empty
(the empty string splits to `[[]]`). -/
def pySplitChars (sep : Char) : List Char → List (List Char)
  | [] => [[]]
  | c :: rest =>
    let r := pySplitChars sep rest
    if c = sep then [] :: r
    else
      match r with
      | [] => [[c]]
      | h :: t => (c :: h) :: t

/-- Python `str.split(sep)` on strings (one-character separator). -/
def pySplit (s : String) (sep : Char) : List String :=
  (pySplitChars sep s.data).map (fun l => ⟨l⟩)

/-- Line 218: `url.split("/")[-1].split("?")`. Python's `str.split(sep)`
always returns a nonempty list, so `[-1]` is the last element
(`getLastD` matches; the default is never used). -/
def deriveFilename (url : String) : List String :=
  pySplit ((pySplit url '/').getLastD "") '?'

/-- Lines 217-220: the value bound to `filename` after the derivation.
`if not filename` re-derives for both `None` and `""` (falsy); the inner
`if not filename: filename = "downloaded_image"` tests the derived *list*,
which is never empty. -/
def downloadFilename (url : String) (filename : Option String) : PyVal :=
  match filename with
  | some f =>
    if f = "" then
      let fn := deriveFilename url
      if fn = [] then .str "downloaded_image" else .list fn
    else .str f
  | none =>
    let fn := deriveFilename url
    if fn = [] then .str "downloaded_image" else .list fn

/-- Line 222: `os.path.join(output_dir, filename)`. Joining with a `str`
component concatenates with a separator (modelled for relative component
names, the only case the client produces); joining with a `list` raises
`TypeError`. -/
def osPathJoin (dir : String) (fn : PyVal) : Except PyErr String :=
  match fn with
  | .str f => .ok (dir ++ "/" ++ f)
  | .list _ => .error .typeError

/-- The path the download is written to (lines 217-222), or the exception
raised while computing it. -/
def downloadOutputPath (url : String) (outputDir : String) (filename : Option String) :
    Except PyErr String :=
  osPathJoin outputDir (downloadFilename url filename)

/-- The request/streaming part of `Client.download` (lines 225-232): the
`try` wraps the streamed GET and `raise_for_status`; the only handler
catches `httpx.RequestError`. -/
def downloadRequest (fetch : Except HttpxError Response) : Except PyErr Response :=
  handleRequestError (requestTryBlock fetch)

/-! ## Page scraper (client.py lines 174-203) -/

/-- An `<img>` tag as seen by BeautifulSoup: `img.get("src")` is `None`
when the attribute is absent. -/
structure ImgTag where
  src : Option String
deriving DecidableEq, Repr

/-- The request part of `get_images_from_page` (lines 188-192): same
`try/except httpx.RequestError` shape as the other operations. -/
def scrapeRequest (fetch : Except HttpxError Response) : Except PyErr Response :=
  handleRequestError (requestTryBlock fetch)

/-- Lines 196-201: `[img.get("src") for img in img_tags if img.get("src")]`
followed by `[urljoin(url, u) for u in image_urls]`. `urljoin` is the
external `urllib.parse.urljoin`, abstracted as a function argument.
Python truthiness: a `None` or empty `src` fails the `if` guard. -/
def get_images_from_page (urljoin : String → String → String) (url : String)
    (img_tags : List ImgTag) : List String :=
  let image_urls := img_tags.filterMap (fun img =>
    match img.src with
    | some s => if s = "" then none else some s
    | none => none)
  image_urls.map (fun u => urljoin url u)

/-- Rendering of the scraper output following the spec's words: the source
attribute of every image tag that has one, resolved against the page URL,
in document order without deduplication. -/
def scrape_spec (urljoin : String → String → String) (url : String)
    (img_tags : List ImgTag) : List String :=
  (img_tags.filterMap ImgTag.src).map (fun u => urljoin url u)

/-- Rendering of the scraper output following the spec's words amended to
keep only non-empty source attributes. -/
def scrape_spec_nonempty (urljoin : String → String → String) (url : String)
    (img_tags : List ImgTag) : List String :=
  ((img_tags.filterMap ImgTag.src).filter (fun s => s ≠ "")).map (fun u => urljoin url u)

/-! ## Paginated search generator (client.py lines 82-172) -/

/-- Modelled from the spec: `ImageResult` lives in `models.py`, which is not
under `src/`; the spec describes it as title, image URL, source page URL,
thumbnail URL, width and height. Its pydantic validation
(`ImageResult.model_validate`) stays abstract: the generator is parametrised
by a `validate : α → Option ImageResult` function over raw entries. -/
structure ImageResult where
  title : String
  image : String
  url : String
  thumbnail : String
  width : Nat
  height : Nat
deriving DecidableEq, Repr

/-- One decoded JSON page: `results = data.get("results")` (`none` when the
key is absent) and `hasNext = ("next" in data)`. -/
structure PageResponse (α : Type) where
  results : Option (List α)
  hasNext : Bool
deriving DecidableEq, Repr

/-- The `for res in results` body (lines 159-167): per entry, first the cap
check (`if max_results is not None and results_yielded >= max_results:
return`), then `yield ImageResult.model_validate(res)` with
`results_yielded += 1`, where a validation failure is skipped
(`except Exception: continue`). Returns the results yielded from this page,
the updated `results_yielded`, and whether the `return` fired (ending the
whole generator rather than just the page). -/
def processEntries {α : Type} (validate : α → Option ImageResult)
    (maxResults : Option Nat) : List α → Nat → List ImageResult × Nat × Bool
  | [], n => ([], n, false)
  | e :: rest, n =>
    match maxResults with
    | some m =>
      if m ≤ n then ([], n, true)
      else
        match validate e with
        | some img =>
          let r := processEntries validate (some m) rest (n + 1)
          (img :: r.1, r.2)
        | none => processEntries validate (some m) rest n
    | none =>
      match validate e with
      | some img =>
        let r := processEntries validate none rest (n + 1)
        (img :: r.1, r.2)
      | none => processEntries validate none rest n

/-- How a run of the generator ended: `terminated` covers both the normal
`break`s and the cap-triggered `return`; `failed` is an exception
propagating out of the loop; `fuelOut` means the modelling fuel ran out
(the Python loop is unbounded). -/
inductive RunOutcome where
  | terminated
  | fuelOut
  | failed (e : PyErr)
deriving DecidableEq, Repr

/-- Observable trace of a generator run: each page request as
`(offset, results_yielded at request time)`, the yielded results, and the
outcome. -/
structure RunResult where
  requests : List (Nat × Nat)
  yields : List ImageResult
  outcome : RunOutcome
deriving DecidableEq, Repr

/-- The `while True` loop of `Client.asearch` (lines 132-172). `server`
gives, per requested offset, the decoded page or the exception raised while
fetching/decoding it (lines 142-153: `NetworkError` on `RequestError`, an
uncaught `HTTPStatusError` on non-success status, `ParsingError` on bad
JSON — see `searchPageRequest`). Per iteration: issue the request; `break`
if `results` is absent or empty; run the entry loop; stop if it `return`ed;
`break` if no `"next"` key; else `offset += len(results)` and repeat. -/
def asearchLoop {α : Type} (server : Nat → Except PyErr (PageResponse α))
    (validate : α → Option ImageResult) (maxResults : Option Nat) :
    Nat → Nat → Nat → RunResult
  | 0, _, _ => ⟨[], [], .fuelOut⟩
  | fuel + 1, resultsYielded, offset =>
    match server offset with
    | .error e => ⟨[(offset, resultsYielded)], [], .failed e⟩
    | .ok page =>
      match page.results with
      | none => ⟨[(offset, resultsYielded)], [], .terminated⟩
      | some [] => ⟨[(offset, resultsYielded)], [], .terminated⟩
      | some (e :: es) =>
        let r := processEntries validate maxResults (e :: es) resultsYielded
        if r.2.2 then ⟨[(offset, resultsYielded)], r.1, .terminated⟩
        else if page.hasNext then
          let rest := asearchLoop server validate maxResults fuel r.2.1
            (offset + (e :: es).length)
          ⟨(offset, resultsYielded) :: rest.requests, r.1 ++ rest.yields, rest.outcome⟩
        else ⟨[(offset, resultsYielded)], r.1, .terminated⟩

/-- The request part of one search-page iteration (lines 142-148): same
`try/except httpx.RequestError` shape as `_get_vqd`. -/
def searchPageRequest (fetch : Except HttpxError Response) : Except PyErr Response :=
  handleRequestError (requestTryBlock fetch)

/-- A full generator run: `results_yielded = 0`, `offset = 0`
(lines 114-115), then the pagination loop. -/
def asearchGen {α : Type} (server : Nat → Except PyErr (PageResponse α))
    (validate : α → Option ImageResult) (maxResults : Option Nat) (fuel : Nat) :
    RunResult :=
  asearchLoop server validate maxResults fuel 0 0

/-! ## Specification-side reading of the token pattern

`HeadMatch l tok` says the regex `vqd=['\"]([a-zA-Z0-9-]+)['\"]` matches at
the head of `l` with captured group `tok`; `MatchAt l i tok` at position
`i`. The capture at a given position is unique: the group's characters
exclude quotes, so `tok` is exactly the run between the opening quote and
the next quote. -/

/-- The pattern matches at the head of `l` with capture `tok`. -/
def HeadMatch (l tok : List Char) : Prop :=
  tok ≠ [] ∧ (∀ c ∈ tok, isTokenChar c = true) ∧
  ∃ q1 q2 rest, isQuoteChar q1 = true ∧ isQuoteChar q2 = true ∧
    l = 'v' :: 'q' :: 'd' :: '=' :: q1 :: (tok ++ q2 :: rest)

/-- The pattern matches at position `i` of `l` with capture `tok`. -/
def MatchAt (l : List Char) (i : Nat) (tok : List Char) : Prop :=
  HeadMatch (l.drop i) tok

/-- A quote character is not a token character. -/
lemma isQuoteChar_not_token {c : Char} (h : isQuoteChar c = true) :
    isTokenChar c = false := by
  have : c = '\'' ∨ c = '"' := by
    simpa [isQuoteChar] using h
  rcases this with rfl | rfl <;> decide

/-- Computing `takeWhile`/`dropWhile` on a list that is a run of `p`-satisfying
elements followed by a failing element. -/
lemma span_exact (p : Char → Bool) (l1 : List Char) (c : Char) (l2 : List Char)
    (h1 : ∀ x ∈ l1, p x = true) (hc : p c = false) :
    (l1 ++ c :: l2).takeWhile p = l1 ∧ (l1 ++ c :: l2).dropWhile p = c :: l2 := by
  induction l1 with
  | nil => simp [List.takeWhile_cons, List.dropWhile_cons, hc]
  | cons a l1' ih =>
    have ha : p a = true := h1 a (List.mem_cons_self _ _)
    have h1' : ∀ x ∈ l1', p x = true := fun x hx => h1 x (List.mem_cons_of_mem _ hx)
    simp [List.takeWhile_cons, List.dropWhile_cons, ha, (ih h1').1, (ih h1').2]

/-- The head matcher succeeds with capture `tok` exactly when the pattern
structurally matches at the head with that capture. -/
lemma matchVqdAt_some_iff (l tok : List Char) :
    matchVqdAt l = some tok ↔ HeadMatch l tok := by
  constructor
  · intro h
    rw [matchVqdAt.eq_def] at h
    split at h
    case _ q rest =>
      split at h
      case isTrue hq =>
        split at h
        case _ q2 rest2 hd =>
          split at h
          case isTrue hcond =>
            have htok : rest.takeWhile isTokenChar = tok := by
              simpa using h
            rw [Bool.and_eq_true] at hcond
            have hq2 : isQuoteChar q2 = true := hcond.1
            have hne : ¬ tok.isEmpty = true := by
              have := hcond.2
              rw [htok] at this
              simp [Bool.not_eq_true'] at this
              simp [this]
            refine ⟨?_, ?_, q, q2, rest2, hq, hq2, ?_⟩
            · intro he
              exact hne (by simp [he])
            · intro c hc
              exact List.mem_takeWhile_imp (htok ▸ hc)
            · have hsplit : rest.takeWhile isTokenChar ++ rest.dropWhile isTokenChar = rest :=
                List.takeWhile_append_dropWhile isTokenChar rest
              rw [htok, hd] at hsplit
              rw [← hsplit]
          case isFalse => exact absurd h (by simp)
        case _ => exact absurd h (by simp)
      case isFalse => exact absurd h (by simp)
    case _ => exact absurd h (by simp)
  · rintro ⟨hne, htokchars, q1, q2, rest, hq1, hq2, rfl⟩
    have hq2' : isTokenChar q2 = false := isQuoteChar_not_token hq2
    have hspan := span_exact isTokenChar tok q2 rest htokchars hq2'
    rw [matchVqdAt.eq_def]
    simp only [hq1, if_true]
    rw [hspan.1, hspan.2]
    simp [hq2, List.isEmpty_iff, hne]

/-- If the scan succeeds, the pattern matches at the found position and at
no earlier position. -/
lemma searchVqd_some (l tok : List Char) (h : searchVqd l = some tok) :
    ∃ i, matchVqdAt (l.drop i) = some tok ∧ ∀ j < i, matchVqdAt (l.drop j) = none := by
  induction l with
  | nil => simp [searchVqd] at h
  | cons c rest ih =>
    cases hm : matchVqdAt (c :: rest) with
    | some t =>
      simp only [searchVqd, hm] at h
      refine ⟨0, ?_, fun j hj => absurd hj (Nat.not_lt_zero j)⟩
      simpa [hm] using h
    | none =>
      simp only [searchVqd, hm] at h
      obtain ⟨i, h1, h2⟩ := ih h
      refine ⟨i + 1, ?_, ?_⟩
      · simpa [List.drop_succ_cons] using h1
      · intro j hj
        cases j with
        | zero => simpa using hm
        | succ j' =>
          simpa [List.drop_succ_cons] using h2 j' (Nat.lt_of_succ_lt_succ hj)

/-- If the scan fails, the pattern matches at no position. -/
lemma searchVqd_none (l : List Char) (h : searchVqd l = none) :
    ∀ i, matchVqdAt (l.drop i) = none := by
  induction l with
  | nil =>
    intro i
    simp [List.drop_nil]
    rfl
  | cons c rest ih =>
    have hm : matchVqdAt (c :: rest) = none ∧ searchVqd rest = none := by
      cases hmm : matchVqdAt (c :: rest) with
      | some t => simp [searchVqd, hmm] at h
      | none =>
        simp only [searchVqd, hmm] at h
        exact ⟨rfl, h⟩
    intro i
    cases i with
    | zero => simpa using hm.1
    | succ i' => simpa [List.drop_succ_cons] using ih hm.2 i'

/-! ## Concrete fixtures used by witnesses and counterexamples -/

/-- A concrete valid image result. -/
def img0 : ImageResult := ⟨"t", "i", "u", "th", 1, 1⟩

/-- A server whose every page holds one valid result and reports a next
page. -/
def srvOnePerPage : Nat → Except PyErr (PageResponse ImageResult) :=
  fun _ => .ok ⟨some [img0], true⟩

/-- A server with one result at offset 0 (next page advertised) and an
absent results array at every other offset. -/
def srvThenEmpty : Nat → Except PyErr (PageResponse ImageResult) :=
  fun off => if off = 0 then .ok ⟨some [img0], true⟩ else .ok ⟨none, false⟩

end DDG

namespace DDG

/-! ## C1: default download filename -/

/-- C1 (code bug): the spec says a download of a URL ending in
`/pic.jpg?size=large` with no explicit filename is written to
`<dir>/pic.jpg`, with a fixed fallback name when the derivation is empty.
The code's line 218 `url.split("/")[-1].split("?")` lacks the final `[0]`
index: `filename` becomes the list `["pic.jpg", "size=large"]`, so
`os.path.join` raises `TypeError`, and since `str.split` never returns an
empty list, the `"downloaded_image"` fallback is unreachable (even for an
empty URL the derived value is the non-empty list `[""]`). -/
theorem download_filename_is_list :
    downloadOutputPath "http://example.com/pic.jpg?size=large" "dir" none =
      .error .typeError ∧
    downloadFilename "http://example.com/pic.jpg?size=large" none =
      .list ["pic.jpg", "size=large"] ∧
    downloadOutputPath "http://example.com/pic.jpg?size=large" "dir" none ≠
      .ok "dir/pic.jpg" ∧
    downloadFilename "" none = .list [""] := by
  refine ⟨rfl, rfl, ?_, rfl⟩
  intro h
  rw [show downloadOutputPath "http://example.com/pic.jpg?size=large" "dir" none =
      Except.error PyErr.typeError from rfl] at h
  exact Except.noConfusion h

/-! ## C2: non-success status handling -/

/-- C2 (code bug): the spec says every operation (token fetch, search page
request, download) fails with `NetworkError` both when the request cannot
complete and when the response has a non-success status. In the code,
`raise_for_status()` raises `httpx.HTTPStatusError`, which the
`except httpx.RequestError` handlers do not catch (it is a sibling class,
not a subclass, of `RequestError`), so a non-success status escapes as an
uncaught `HTTPStatusError` while only transport failures become
`NetworkError`. -/
theorem status_error_escapes_uncaught :
    get_vqd (.ok ⟨404, some "vqd=\"x\""⟩) = .error (.uncaught (.httpStatusError 404)) ∧
    searchPageRequest (.ok ⟨500, none⟩) = .error (.uncaught (.httpStatusError 500)) ∧
    downloadRequest (.ok ⟨403, none⟩) = .error (.uncaught (.httpStatusError 403)) ∧
    get_vqd (.error .requestError) = .error .networkError ∧
    searchPageRequest (.error .requestError) = .error .networkError ∧
    downloadRequest (.error .requestError) = .error .networkError := by
  refine ⟨rfl, rfl, rfl, rfl, rfl, rfl⟩

/-! ## C4 and C10: safe-search mapping -/

/-- C4 (counterexample): the claim says the string `"on"` maps to provider
code 1 and *any other string* maps to -1; but the code lowercases first, so
the distinct string `"ON"` also maps to `"1"`, not `"-1"`. -/
theorem p_value_upper_on_counterexample :
    p_value "ON" = "1" ∧ ("ON" : String) ≠ "on" ∧ ("ON" : String) ≠ "moderate" ∧
    ("ON" : String) ≠ "off" ∧ ("1" : String) ≠ "-1" := by
  refine ⟨rfl, by decide, by decide, by decide, by decide⟩

/-- C4 (amended): the safe-search table is applied to the *lowercased*
input: if it lowercases to `"on"` the provider code is `"1"`, to
`"moderate"` it is `"-1"`, to `"off"` it is `"-2"`, and any other
lowercased value yields the default `"-1"`. -/
theorem p_value_lower_table (s : String) :
    p_value s =
      if pyLower s = "on" then "1"
      else if pyLower s = "moderate" then "-1"
      else if pyLower s = "off" then "-2"
      else "-1" := by
  unfold p_value safesearch_map
  by_cases h1 : pyLower s = "on"
  · simp [List.lookup, h1]
  · by_cases h2 : pyLower s = "moderate"
    · simp [List.lookup, h1, h2]
    · by_cases h3 : pyLower s = "off"
      · simp [List.lookup, h1, h2, h3]
      · have e1 : (pyLower s == "on") = false := beq_eq_false_iff_ne.mpr h1
        have e2 : (pyLower s == "moderate") = false := beq_eq_false_iff_ne.mpr h2
        have e3 : (pyLower s == "off") = false := beq_eq_false_iff_ne.mpr h3
        simp [List.lookup, e1, e2, e3, h1, h2, h3]

/-- C10: the safe-search mapping is case-insensitive — the provider code is
a function of the lowercased input, and in particular `"ON"` maps to
`"1"`, `"OFF"` to `"-2"` and `"Moderate"` to `"-1"`. -/
theorem p_value_case_insensitive :
    (∀ s t : String, pyLower s = pyLower t → p_value s = p_value t) ∧
    p_value "ON" = "1" ∧ p_value "OFF" = "-2" ∧ p_value "Moderate" = "-1" := by
  refine ⟨?_, rfl, rfl, rfl⟩
  intro s t h
  unfold p_value
  rw [h]

/-- Witness for C10 at concrete inputs. -/
theorem p_value_case_insensitive_witness :
    pyLower "On" = pyLower "oN" ∧ p_value "On" = p_value "oN" :=
  ⟨by decide, p_value_case_insensitive.1 "On" "oN" (by decide)⟩

/-! ## C5: filter string -/

/-- A rendered `key:value` field is never the empty string. -/
lemma keyField_ne_empty (k s : String) : k ++ ":" ++ s ≠ "" := by
  intro h
  have hl := congrArg String.length h
  have hcolon : (":" : String).length = 1 := rfl
  simp [String.length_append, hcolon] at hl

/-- Dropping empty renderings then joining coincides with joining the
renderings of the present (non-`none`, non-empty) fields. -/
lemma filter_optField_eq_filterMap (l : List (String × Option String))
    (h : ∀ kv ∈ l, kv.2 ≠ some "") :
    (l.map (fun kv => optField kv.1 kv.2)).filter (fun s => s ≠ "") =
    l.filterMap (fun kv => kv.2.map (fun s => kv.1 ++ ":" ++ s)) := by
  induction l with
  | nil => rfl
  | cons kv rest ih =>
    obtain ⟨k, v⟩ := kv
    have hrest : ∀ kv ∈ rest, kv.2 ≠ some "" :=
      fun kv hkv => h kv (List.mem_cons_of_mem _ hkv)
    cases v with
    | none => simpa [optField] using ih hrest
    | some s =>
      have hs : s ≠ "" := by
        intro hs
        exact (h (k, some s) (List.mem_cons_self _ _)) (by rw [hs])
      simp [optField, hs, keyField_ne_empty k s]
      simpa [optField] using ih hrest

/-- C5: for every combination of present and absent filter fields (a field
passed as the empty string counts as absent, by Python truthiness), the
filter string is the comma-join of `key:value` renderings of exactly the
present fields in the fixed order time, size, color, type, layout, license
(so no leading, trailing or doubled commas), and in particular time=Week
with size=Large yields `time:Week,size:Large`. -/
theorem f_value_matches_spec
    (tl sz c ty la li : Option String)
    (h1 : tl ≠ some "") (h2 : sz ≠ some "") (h3 : c ≠ some "")
    (h4 : ty ≠ some "") (h5 : la ≠ some "") (h6 : li ≠ some "") :
    f_value tl sz c ty la li = f_value_spec tl sz c ty la li ∧
    f_value (some "Week") (some "Large") none none none none =
      "time:Week,size:Large" := by
  constructor
  · unfold f_value f_value_spec
    have key : filtersList tl sz c ty la li =
        ([("time", tl), ("size", sz), ("color", c), ("type", ty), ("layout", la),
          ("license", li)] : List (String × Option String)).map
          (fun kv => optField kv.1 kv.2) := rfl
    rw [key, filter_optField_eq_filterMap]
    intro kv hkv
    simp only [List.mem_cons, List.not_mem_nil, or_false] at hkv
    rcases hkv with rfl | rfl | rfl | rfl | rfl | rfl
    · exact h1
    · exact h2
    · exact h3
    · exact h4
    · exact h5
    · exact h6
  · rfl

/-- Witness for C5: the theorem applied at the spec's concrete example. -/
theorem f_value_matches_spec_witness :
    f_value (some "Week") (some "Large") none none none none =
      f_value_spec (some "Week") (some "Large") none none none none ∧
    f_value (some "Week") (some "Large") none none none none =
      "time:Week,size:Large" :=
  f_value_matches_spec (some "Week") (some "Large") none none none none
    (by decide) (by decide) (by decide) (by decide) (by decide) (by decide)

/-! ## C7: invalid entries are skipped -/

/-- Once the cap is reached, the entry loop yields nothing and leaves the
counter unchanged. -/
lemma processEntries_at_cap {α : Type} (validate : α → Option ImageResult)
    (m n : Nat) (l : List α) (h : m ≤ n) :
    (processEntries validate (some m) l n).1 = [] ∧
    (processEntries validate (some m) l n).2.1 = n := by
  cases l with
  | nil => exact ⟨rfl, rfl⟩
  | cons e rest => simp [processEntries, h]

/-- C7: an entry that fails `ImageResult` validation is skipped and the
entry loop continues with the next entry — deleting an invalid entry from a
page changes neither the results yielded from the page nor the updated
counter (so a single invalid entry never terminates or fails the sequence);
and without a cap the page yields exactly its valid entries, in order. -/
theorem asearch_skips_invalid_entries {α : Type} (validate : α → Option ImageResult) :
    (∀ (mr : Option Nat) (l1 l2 : List α) (e : α) (n : Nat), validate e = none →
      (processEntries validate mr (l1 ++ e :: l2) n).1 =
        (processEntries validate mr (l1 ++ l2) n).1 ∧
      (processEntries validate mr (l1 ++ e :: l2) n).2.1 =
        (processEntries validate mr (l1 ++ l2) n).2.1) ∧
    (∀ (l : List α) (n : Nat),
      (processEntries validate none l n).1 = l.filterMap validate) := by
  constructor
  · intro mr l1 l2 e n he
    induction l1 generalizing n with
    | nil =>
      cases mr with
      | none => simp [processEntries, he]
      | some m =>
        by_cases hc : m ≤ n
        · have hcap := processEntries_at_cap validate m n l2 hc
          simp [processEntries, hc, hcap.1, hcap.2]
        · simp [processEntries, hc, he]
    | cons a l1' ih =>
      cases mr with
      | none =>
        cases hv : validate a with
        | none => simpa [processEntries, hv] using ih n
        | some img => simp [processEntries, hv, (ih (n + 1)).1, (ih (n + 1)).2]
      | some m =>
        by_cases hc : m ≤ n
        · simp [processEntries, hc]
        · cases hv : validate a with
          | none => simpa [processEntries, hc, hv] using ih n
          | some img => simp [processEntries, hc, hv, (ih (n + 1)).1, (ih (n + 1)).2]
  · intro l n
    induction l generalizing n with
    | nil => rfl
    | cons a rest ih =>
      cases hv : validate a with
      | none => simp [processEntries, hv, ih n]
      | some img => simp [processEntries, hv, ih (n + 1)]

/-- Witness for C7 at a concrete page: an invalid entry between two valid
ones is dropped while both valid entries are still yielded. -/
theorem asearch_skips_invalid_entries_witness :
    (processEntries (fun b : Bool => if b then some img0 else none) none
        ([true] ++ false :: [true]) 0).1 =
      (processEntries (fun b : Bool => if b then some img0 else none) none
        ([true] ++ [true]) 0).1 ∧
    (processEntries (fun b : Bool => if b then some img0 else none) none
        [true, false, true] 0).1 = [img0, img0] := by
  constructor
  · exact ((asearch_skips_invalid_entries
      (fun b : Bool => if b then some img0 else none)).1 none [true] [true] false 0
      (by decide)).1
  · have h := (asearch_skips_invalid_entries
      (fun b : Bool => if b then some img0 else none)).2 [true, false, true] 0
    simpa using h

/-! ## C6: token extraction -/

/-- C6: when the surrounding request succeeds, the token fetch returns
exactly the captured group of the leftmost `vqd=['\"]...['\"]` match in the
body (a non-empty alphanumeric/hyphen string between quotes, with no match
at any earlier position); when the pattern matches nowhere, or the body is
unreadable, it fails with the token-extraction error (`VQDTokenError`). -/
theorem get_vqd_extracts_pattern_capture
    (fetch : Except HttpxError Response) (r : Response)
    (hok : handleRequestError (requestTryBlock fetch) = .ok r) :
    (∀ text tok, r.body = some text → get_vqd fetch = .ok tok →
      ∃ i, MatchAt text.data i tok.data ∧ ∀ j < i, ∀ u, ¬ MatchAt text.data j u) ∧
    (∀ text, r.body = some text → (∀ i u, ¬ MatchAt text.data i u) →
      get_vqd fetch = .error .vqdTokenError) ∧
    (r.body = none → get_vqd fetch = .error .vqdTokenError) := by
  refine ⟨?_, ?_, ?_⟩
  · intro text tok hbody htok
    simp only [get_vqd, hok, hbody] at htok
    cases hf : findVqd text with
    | none => rw [hf] at htok; exact absurd htok (by simp)
    | some t =>
      rw [hf] at htok
      have ht : t = tok := by simpa using htok
      subst ht
      unfold findVqd at hf
      cases hs : searchVqd text.data with
      | none => rw [hs] at hf; simp at hf
      | some ltok =>
        rw [hs] at hf
        have hlt : (⟨ltok⟩ : String) = t := by simpa using hf
        obtain ⟨i, h1, h2⟩ := searchVqd_some _ _ hs
        refine ⟨i, ?_, ?_⟩
        · have hm := (matchVqdAt_some_iff _ _).1 h1
          have hdata : t.data = ltok := by rw [← hlt]
          unfold MatchAt
          rw [hdata]
          exact hm
        · intro j hj u hmAt
          have := (matchVqdAt_some_iff _ _).2 hmAt
          rw [h2 j hj] at this
          exact Option.noConfusion this
  · intro text hbody hnone
    simp only [get_vqd, hok, hbody]
    cases hs : searchVqd text.data with
    | none => simp [findVqd, hs]
    | some ltok =>
      obtain ⟨i, h1, _⟩ := searchVqd_some _ _ hs
      exact absurd ((matchVqdAt_some_iff _ _).1 h1) (hnone i ltok)
  · intro hbody
    simp only [get_vqd, hok, hbody]

/-- Witness for C6: on a concrete body the extracted token is the leftmost
pattern capture. -/
theorem get_vqd_extracts_pattern_capture_witness :
    ∃ i, MatchAt ("xx vqd=\"ab-1\" yy").data i ("ab-1").data ∧
      ∀ j < i, ∀ u, ¬ MatchAt ("xx vqd=\"ab-1\" yy").data j u :=
  (get_vqd_extracts_pattern_capture (.ok ⟨200, some "xx vqd=\"ab-1\" yy"⟩)
      ⟨200, some "xx vqd=\"ab-1\" yy"⟩ rfl).1
    "xx vqd=\"ab-1\" yy" "ab-1" rfl rfl

/-! ## Entry-loop counting lemmas -/

/-- The updated counter is the initial counter plus the number of results
yielded from the page. -/
lemma processEntries_count {α : Type} (validate : α → Option ImageResult)
    (mr : Option Nat) (l : List α) (n : Nat) :
    (processEntries validate mr l n).2.1 = n + (processEntries validate mr l n).1.length := by
  induction l generalizing n with
  | nil => simp [processEntries]
  | cons a rest ih =>
    cases mr with
    | none =>
      cases hv : validate a with
      | none => simpa [processEntries, hv] using ih n
      | some img =>
        simp [processEntries, hv, ih (n + 1)]
        omega
    | some m =>
      by_cases hc : m ≤ n
      · simp [processEntries, hc]
      · cases hv : validate a with
        | none => simpa [processEntries, hc, hv] using ih n
        | some img =>
          simp [processEntries, hc, hv, ih (n + 1)]
          omega

/-- A capped entry loop never pushes the counter beyond the cap. -/
lemma processEntries_le {α : Type} (validate : α → Option ImageResult)
    (m : Nat) (l : List α) (n : Nat) (h : n ≤ m) :
    (processEntries validate (some m) l n).2.1 ≤ m := by
  induction l generalizing n with
  | nil => simpa [processEntries] using h
  | cons a rest ih =>
    by_cases hc : m ≤ n
    · simpa [processEntries, hc] using h
    · cases hv : validate a with
      | none => simpa [processEntries, hc, hv] using ih n h
      | some img => simpa [processEntries, hc, hv] using ih (n + 1) (by omega)

/-- With the counter at (or beyond) the cap and a non-empty page, the entry
loop `return`s at once: nothing yielded, counter unchanged. -/
lemma processEntries_hits_cap {α : Type} (validate : α → Option ImageResult)
    (m n : Nat) (e : α) (es : List α) (h : m ≤ n) :
    processEntries validate (some m) (e :: es) n = ([], n, true) := by
  simp [processEntries, h]

/-- Each loop iteration records its own request first. -/
lemma asearchLoop_requests_head {α : Type}
    (server : Nat → Except PyErr (PageResponse α)) (validate : α → Option ImageResult)
    (mr : Option Nat) (fuel n off : Nat) :
    (asearchLoop server validate mr (fuel + 1) n off).requests.head? = some (off, n) := by
  simp only [asearchLoop]
  cases hs : server off with
  | error e => rfl
  | ok page =>
    obtain ⟨res, hnext⟩ := page
    cases res with
    | none => rfl
    | some l =>
      cases l with
      | nil => rfl
      | cons e es =>
        dsimp only
        by_cases h1 : (processEntries validate mr (e :: es) n).2.2 = true
        · simp [h1]
        · cases hnext <;> simp [h1]

/-- Cap invariant of the pagination loop: starting at `n ≤ m` yielded
results, the run yields at most `m - n` further results, and every
request except possibly the last is issued strictly below the cap. -/
lemma asearchLoop_cap {α : Type} (server : Nat → Except PyErr (PageResponse α))
    (validate : α → Option ImageResult) (m : Nat) (fuel : Nat) :
    ∀ (n off : Nat), n ≤ m →
      n + (asearchLoop server validate (some m) fuel n off).yields.length ≤ m ∧
      ∀ pr ∈ (asearchLoop server validate (some m) fuel n off).requests.dropLast,
        pr.2 < m := by
  induction fuel with
  | zero =>
    intro n off h
    exact ⟨by simpa [asearchLoop] using h, by simp [asearchLoop]⟩
  | succ fuel ih =>
    intro n off h
    cases hs : server off with
    | error e =>
      refine ⟨by simpa [asearchLoop, hs] using h, ?_⟩
      simp [asearchLoop, hs]
    | ok page =>
      obtain ⟨res, hnext⟩ := page
      cases res with
      | none =>
        refine ⟨by simpa [asearchLoop, hs] using h, ?_⟩
        simp [asearchLoop, hs]
      | some l =>
        cases l with
        | nil =>
          refine ⟨by simpa [asearchLoop, hs] using h, ?_⟩
          simp [asearchLoop, hs]
        | cons e es =>
          have hcount := processEntries_count validate (some m) (e :: es) n
          have hle := processEntries_le validate m (e :: es) n h
          by_cases hearly : (processEntries validate (some m) (e :: es) n).2.2 = true
          · refine ⟨?_, ?_⟩
            · simp [asearchLoop, hs, hearly]
              omega
            · simp [asearchLoop, hs, hearly]
          · cases hnext with
            | false =>
              refine ⟨?_, ?_⟩
              · simp [asearchLoop, hs, hearly]
                omega
              · simp [asearchLoop, hs, hearly]
            | true =>
              have hnlt : n < m := by
                rcases Nat.lt_or_ge n m with hlt | hge
                · exact hlt
                · exact absurd (by
                    rw [processEntries_hits_cap validate m n e es hge]) hearly
              have ihrec := ih (processEntries validate (some m) (e :: es) n).2.1
                (off + (e :: es).length) hle
              simp only [List.length_cons] at ihrec
              refine ⟨?_, ?_⟩
              · simp only [asearchLoop, hs, hearly]
                simp only [Bool.false_eq_true, if_false, if_true]
                simp [List.length_append]
                omega
              · simp only [asearchLoop, hs, hearly]
                simp only [Bool.false_eq_true, if_false, if_true]
                intro pr hpr
                simp only [List.length_cons] at hpr
                rcases hreq : (asearchLoop server validate (some m) fuel
                    (processEntries validate (some m) (e :: es) n).2.1
                    (off + (es.length + 1))).requests with _ | ⟨q, qs⟩
                · rw [hreq] at hpr
                  simp [List.dropLast_single] at hpr
                · rw [hreq] at hpr
                  rw [List.dropLast_cons₂] at hpr
                  rcases List.mem_cons.1 hpr with rfl | hpr'
                  · exact hnlt
                  · exact ihrec.2 pr (by rw [hreq]; exact hpr')

/-! ## C3: result cap -/

/-- C3 (counterexample): with `max_results = 1` against a server whose
first page holds one valid result and advertises a next page, the cap is
reached at the end of page one, yet the generator still issues a second
page request — `(1, 1)` records a request made with `results_yielded = 1`,
already at the cap — before terminating on that page's first entry. The
claim that the generator "terminates immediately without issuing any
further page request" once the cap is reached is therefore false. -/
theorem asearch_extra_request_at_cap :
    (asearchGen srvOnePerPage some (some 1) 3).yields.length = 1 ∧
    (asearchGen srvOnePerPage some (some 1) 3).requests = [(0, 0), (1, 1)] := by
  exact ⟨rfl, rfl⟩

/-- C3 (amended): the generator yields at most `max_results` results, and
every page request except possibly the final one is issued while strictly
fewer than `max_results` results have been yielded; when the cap is reached
strictly inside a page this means no further page is requested, but when it
is reached exactly at the end of a page whose response advertises a next
page, one further page request (the run's last) is issued before the
generator terminates. -/
theorem asearch_respects_cap {α : Type} (server : Nat → Except PyErr (PageResponse α))
    (validate : α → Option ImageResult) (m fuel : Nat) :
    (asearchGen server validate (some m) fuel).yields.length ≤ m ∧
    ((asearchGen server validate (some m) fuel).requests.dropLast.all
      (fun pr => pr.2 < m)) = true := by
  have h := asearchLoop_cap server validate m fuel 0 0 (Nat.zero_le m)
  constructor
  · simpa [asearchGen] using h.1
  · rw [List.all_eq_true]
    intro pr hpr
    simpa using h.2 pr (by simpa [asearchGen] using hpr)

/-! ## C8: pagination and termination -/

/-- C8: the generator's first request is at offset 0; a page whose decoded
`results` is absent or empty terminates the sequence normally (no yields
from that page, no further requests); a non-empty page with no next-page
indicator terminates after yielding that page's (valid) results; and a
non-empty page with a next-page indicator — when the entry loop did not hit
the cap — leads to exactly one more recursion whose request is at
`offset + len(results)`. -/
theorem asearch_pagination {α : Type} (server : Nat → Except PyErr (PageResponse α))
    (validate : α → Option ImageResult) (mr : Option Nat) (fuel n offset : Nat) :
    ((asearchGen server validate mr (fuel + 1)).requests.head? = some (0, 0)) ∧
    (∀ p, server offset = .ok p → (p.results = none ∨ p.results = some ([] : List α)) →
      asearchLoop server validate mr (fuel + 1) n offset =
        ⟨[(offset, n)], [], .terminated⟩) ∧
    (∀ p l, server offset = .ok p → p.results = some l → l ≠ [] →
      (processEntries validate mr l n).2.2 = false → p.hasNext = false →
      asearchLoop server validate mr (fuel + 1) n offset =
        ⟨[(offset, n)], (processEntries validate mr l n).1, .terminated⟩) ∧
    (∀ p l, server offset = .ok p → p.results = some l → l ≠ [] →
      (processEntries validate mr l n).2.2 = false → p.hasNext = true →
      asearchLoop server validate mr (fuel + 2) n offset =
        ⟨(offset, n) :: (asearchLoop server validate mr (fuel + 1)
            (processEntries validate mr l n).2.1 (offset + l.length)).requests,
          (processEntries validate mr l n).1 ++ (asearchLoop server validate mr (fuel + 1)
            (processEntries validate mr l n).2.1 (offset + l.length)).yields,
          (asearchLoop server validate mr (fuel + 1)
            (processEntries validate mr l n).2.1 (offset + l.length)).outcome⟩ ∧
      (asearchLoop server validate mr (fuel + 2) n offset).requests.tail.head? =
        some (offset + l.length, (processEntries validate mr l n).2.1)) := by
  refine ⟨?_, ?_, ?_, ?_⟩
  · exact asearchLoop_requests_head server validate mr fuel 0 0
  · rintro p hs (hres | hres) <;> · obtain ⟨res, hnext⟩ := p
                                    cases hres
                                    simp [asearchLoop, hs]
  · rintro p l hs hres hne hearly hnext
    obtain ⟨res, hn⟩ := p
    cases hres
    have hn' : hn = false := hnext
    subst hn'
    cases l with
    | nil => exact absurd rfl hne
    | cons e es => simp [asearchLoop, hs, hearly]
  · rintro p l hs hres hne hearly hnext
    obtain ⟨res, hn⟩ := p
    cases hres
    have hn' : hn = true := hnext
    subst hn'
    cases l with
    | nil => exact absurd rfl hne
    | cons e es =>
      have hstep : asearchLoop server validate mr (fuel + 2) n offset =
          ⟨(offset, n) :: (asearchLoop server validate mr (fuel + 1)
              (processEntries validate mr (e :: es) n).2.1
              (offset + (e :: es).length)).requests,
            (processEntries validate mr (e :: es) n).1 ++ (asearchLoop server validate mr
              (fuel + 1) (processEntries validate mr (e :: es) n).2.1
              (offset + (e :: es).length)).yields,
            (asearchLoop server validate mr (fuel + 1)
              (processEntries validate mr (e :: es) n).2.1
              (offset + (e :: es).length)).outcome⟩ := by
        conv_lhs => rw [show fuel + 2 = (fuel + 1) + 1 from rfl, asearchLoop]
        simp [hs, hearly]
      refine ⟨hstep, ?_⟩
      rw [hstep]
      simpa using asearchLoop_requests_head server validate mr fuel
        (processEntries validate mr (e :: es) n).2.1 (offset + (e :: es).length)

/-- Witness for C8 at a concrete server: an offset whose page has an absent
results array terminates the run with that single request and no yields. -/
theorem asearch_pagination_witness :
    asearchLoop srvThenEmpty some none 3 5 1 = ⟨[(1, 5)], [], .terminated⟩ :=
  (asearch_pagination srvThenEmpty some none 2 5 1).2.1 ⟨none, false⟩ rfl (Or.inl rfl)

/-! ## C9: page scraper -/

/-- C9 (counterexample): the claim says the scraper returns the resolved
source attribute of *every* image tag; but a tag whose `src` attribute is
the empty string is dropped by the truthiness guard
`if img.get("src")` (line 197), so a page with one such tag yields an empty
list while the claim demands one (resolved) entry. -/
theorem scraper_drops_empty_src :
    get_images_from_page (fun _ r => r) "http://e.com/p" [⟨some ""⟩] = [] ∧
    scrape_spec (fun _ r => r) "http://e.com/p" [⟨some ""⟩] = [""] ∧
    ([] : List String) ≠ [""] := by
  refine ⟨rfl, rfl, by decide⟩

/-- C9 (amended): the scraper returns the source attribute of every image
tag whose source attribute is present and non-empty, each resolved against
the page's own URL, in document order and without deduplication. -/
theorem scraper_returns_nonempty_srcs (urljoin : String → String → String)
    (url : String) (tags : List ImgTag) :
    get_images_from_page urljoin url tags = scrape_spec_nonempty urljoin url tags := by
  unfold get_images_from_page scrape_spec_nonempty
  induction tags with
  | nil => rfl
  | cons t rest ih =>
    obtain ⟨src⟩ := t
    cases src with
    | none => simpa using ih
    | some s =>
      by_cases hs : s = ""
      · simp [hs] at ih ⊢
        exact ih
      · simp [hs] at ih ⊢
        exact ih

end DDG
